import Mathlib

/-!
Verification of the document-QA RAG backend (shallow embedding).

Python sources are embedded as executable Lean definitions:
pure functions become Lean functions, stateful code becomes explicit
state passing, fallible code returns `Except`, and external effects
(disk writes, network calls, the ML embedder, the database) are passed
in as explicit outcome parameters so that every control path of the
source is represented.
-/

namespace DocQA

/-! ## Python string primitives

Python `str` values are embedded as `List Char`.  `str.lower` maps
`Char.toLower` over the text, `str.strip` drops whitespace from both
ends, and `str.replace c ""` removes every occurrence of the character.
-/

def pyLower (s : List Char) : List Char := s.map Char.toLower

/-- Drop leading whitespace, as the front half of Python `str.strip`. -/
def lstrip (s : List Char) : List Char := s.dropWhile Char.isWhitespace

/-- Drop trailing whitespace, as the back half of Python `str.strip`. -/
def rstrip (s : List Char) : List Char :=
  (s.reverse.dropWhile Char.isWhitespace).reverse

/-- Python `str.strip`: remove leading and trailing whitespace. -/
def pyStrip (s : List Char) : List Char := rstrip (lstrip s)

/-- Python `str.replace (String.singleton c) ""`: remove every occurrence of `c`. -/
def removeChar (c : Char) (s : List Char) : List Char := s.filter (· ≠ c)

/-! ## MD5 (RFC 1321)

`hashlib.md5(...).hexdigest()` from `get_question_hash` in
`app/routers/query.py`.  Implemented over `Nat` with explicit
reduction mod `2 ^ 32`.
-/

/-- Reduce to a 32-bit word. -/
def w32 (n : Nat) : Nat := n % 4294967296

/-- 32-bit addition. -/
def wadd (a b : Nat) : Nat := w32 (a + b)

/-- 32-bit left rotation by `s` bits. -/
def rotl (x s : Nat) : Nat := w32 (x * 2 ^ s + x / 2 ^ (32 - s))

/-- Bitwise complement on 32-bit words. -/
def wnot (x : Nat) : Nat := 4294967295 - x

def md5F (x y z : Nat) : Nat := (x &&& y) ||| (wnot x &&& z)
def md5G (x y z : Nat) : Nat := (x &&& z) ||| (y &&& wnot z)
def md5H (x y z : Nat) : Nat := x ^^^ y ^^^ z
def md5I (x y z : Nat) : Nat := y ^^^ (x ||| wnot z)

/-- The 64 sine-derived constants of MD5. -/
def md5K : List Nat :=
  [3614090360, 3905402710, 606105819, 3250441966,
   4118548399, 1200080426, 2821735955, 4249261313,
   1770035416, 2336552879, 4294925233, 2304563134,
   1804603682, 4254626195, 2792965006, 1236535329,
   4129170786, 3225465664, 643717713, 3921069994,
   3593408605, 38016083, 3634488961, 3889429448,
   568446438, 3275163606, 4107603335, 1163531501,
   2850285829, 4243563512, 1735328473, 2368359562,
   4294588738, 2272392833, 1839030562, 4259657740,
   2763975236, 1272893353, 4139469664, 3200236656,
   681279174, 3936430074, 3572445317, 76029189,
   3654602809, 3873151461, 530742520, 3299628645,
   4096336452, 1126891415, 2878612391, 4237533241,
   1700485571, 2399980690, 4293915773, 2240044497,
   1873313359, 4264355552, 2734768916, 1309151649,
   4149444226, 3174756917, 718787259, 3951481745]

/-- The per-round left-rotation amounts of MD5. -/
def md5S : List Nat :=
  [7, 12, 17, 22, 7, 12, 17, 22, 7, 12, 17, 22, 7, 12, 17, 22,
   5, 9, 14, 20, 5, 9, 14, 20, 5, 9, 14, 20, 5, 9, 14, 20,
   4, 11, 16, 23, 4, 11, 16, 23, 4, 11, 16, 23, 4, 11, 16, 23,
   6, 10, 15, 21, 6, 10, 15, 21, 6, 10, 15, 21, 6, 10, 15, 21]

/-- One MD5 operation, step `i` of a block, on state `(a, b, c, d)`
with message words `m`. -/
def md5Step (m : List Nat) (st : Nat × Nat × Nat × Nat) (i : Nat) :
    Nat × Nat × Nat × Nat :=
  let (a, b, c, d) := st
  let (f, g) :=
    if i < 16 then (md5F b c d, i)
    else if i < 32 then (md5G b c d, (5 * i + 1) % 16)
    else if i < 48 then (md5H b c d, (3 * i + 5) % 16)
    else (md5I b c d, (7 * i) % 16)
  let tmp := wadd (wadd (wadd a f) (md5K.getD i 0)) (m.getD g 0)
  let b' := wadd b (rotl tmp (md5S.getD i 0))
  (d, b', b, c)

/-- Assemble 4 little-endian bytes into a 32-bit word, repeatedly. -/
def bytesToWords : List Nat → List Nat
  | b0 :: b1 :: b2 :: b3 :: rest =>
      (b0 + b1 * 256 + b2 * 65536 + b3 * 16777216) :: bytesToWords rest
  | _ => []

/-- Emit `k` little-endian bytes of `n`. -/
def natToBytesLE (n : Nat) : Nat → List Nat
  | 0 => []
  | k + 1 => n % 256 :: natToBytesLE (n / 256) k

/-- MD5 padding: append `0x80`, zeros to 56 mod 64, then the 64-bit
little-endian bit length. -/
def md5Pad (msg : List Nat) : List Nat :=
  let len := msg.length
  let zeros := (55 + 64 - len % 64) % 64
  msg ++ [128] ++ List.replicate zeros 0 ++ natToBytesLE (len * 8) 8

/-- Process one 16-word block, updating the 4-word chaining state. -/
def md5Block (st : Nat × Nat × Nat × Nat) (m : List Nat) :
    Nat × Nat × Nat × Nat :=
  let (a0, b0, c0, d0) := st
  let (a, b, c, d) := (List.range 64).foldl (md5Step m) (a0, b0, c0, d0)
  (wadd a0 a, wadd b0 b, wadd c0 c, wadd d0 d)

/-- Split a word list into 16-word blocks; the fuel argument makes the
recursion structural so that proofs can evaluate it. -/
def toBlocksAux : Nat → List Nat → List (List Nat)
  | 0, _ => []
  | _, [] => []
  | fuel + 1, ws => ws.take 16 :: toBlocksAux fuel (ws.drop 16)

/-- Split a word list into 16-word blocks. -/
def toBlocks (ws : List Nat) : List (List Nat) := toBlocksAux ws.length ws

/-- Hex digits of one byte, low nibble last. -/
def byteToHex (b : Nat) : List Char :=
  let digit (n : Nat) : Char := Char.ofNat (if n < 10 then 48 + n else 87 + n)
  [digit (b / 16), digit (b % 16)]

/-- Hex rendering of a 32-bit word, little-endian byte order as in the
MD5 digest. -/
def wordToHex (w : Nat) : List Char :=
  (natToBytesLE w 4).flatMap byteToHex

/-- MD5 digest of a byte list, as the 32-character lowercase hex string. -/
def md5Hex (msg : List Nat) : String :=
  let blocks := toBlocks (bytesToWords (md5Pad msg))
  let (a, b, c, d) :=
    blocks.foldl md5Block (1732584193, 4023233417, 2562383102, 271733878)
  ⟨wordToHex a ++ wordToHex b ++ wordToHex c ++ wordToHex d⟩

/-- UTF-8 encoding of one character, as Python `str.encode()` produces. -/
def utf8Char (c : Char) : List Nat :=
  let n := c.toNat
  if n < 128 then [n]
  else if n < 2048 then [192 + n / 64, 128 + n % 64]
  else if n < 65536 then
    [224 + n / 4096, 128 + n / 64 % 64, 128 + n % 64]
  else
    [240 + n / 262144, 128 + n / 4096 % 64, 128 + n / 64 % 64, 128 + n % 64]

/-- UTF-8 encoding of an embedded Python string. -/
def utf8Encode (s : List Char) : List Nat := s.flatMap utf8Char

/-! ## Question normalization and similarity hash

From `app/routers/query.py`:

`normalize_question` lowercases, strips, then removes `?`, `.` and `,`;
`get_question_hash` is the MD5 hex digest of the normalized question.
-/

def normalize_question (question : List Char) : List Char :=
  removeChar ',' (removeChar '.' (removeChar '?' (pyStrip (pyLower question))))

def get_question_hash (question : List Char) : String :=
  md5Hex (utf8Encode (normalize_question question))

/-- Python `str.lower` on an embedded `String`. -/
def strLower (s : String) : String := ⟨pyLower s.data⟩

/-! ## Document processor

`DocumentProcessor.process_document` in
`app/services/document_processor.py`.  A file on disk is embedded as a
`FileDesc`: `present` is `file_path.exists()`, `size` is
`file_path.stat().st_size`, `suffix` is `file_path.suffix`, and the two
`Except` fields carry the outcome of the extension-specific extractor
call and of the final `save_path.write_text` respectively (the
extractors and the filesystem are external effects).
-/

deriving instance DecidableEq for Except

structure FileDesc where
  path : String
  present : Bool
  size : Nat
  suffix : String
  extractOutcome : Except String String
  writeOutcome : Except String Unit
deriving DecidableEq

/-- The error kinds `process_document` can raise: `FileNotFoundError`,
`ValueError` for the size cap, `ValueError` for the extension check, and
a propagated `OSError` from the artifact write. -/
inductive ProcError
  | notFound (msg : String)
  | tooLarge (msg : String)
  | unsupportedFormat (msg : String)
  | writeFailed (msg : String)
deriving DecidableEq

def supportedExtensions : List String := [".pdf", ".docx", ".txt", ".html", ".md"]

def process_document (f : FileDesc) : Except ProcError (String × Nat) :=
  if f.present = false then
    .error (.notFound ("File not found: " ++ f.path))
  else if f.size > 50 * 1024 * 1024 then
    .error (.tooLarge "File too large (>50 MB)")
  else
    let ext := strLower f.suffix
    if supportedExtensions.contains ext = false then
      .error (.unsupportedFormat ("Unsupported file format: " ++ ext))
    else
      let text :=
        match f.extractOutcome with
        | .ok t => t
        | .error _ => ""
      match f.writeOutcome with
      | .ok _ => .ok (text, text.length)
      | .error e => .error (.writeFailed e)

/-! ## Vector store

`VectorStore` in `app/services/vector_store.py`.  The FAISS matrix `V`
is embedded as `indexRows : List α` over an abstract row type `α`
(row values never influence control flow except through the abstract
similarity function), and the metadata sidecar `self.chunks` as
`chunks : List PyChunk`.  The embedder (`generate_embeddings`, one row
per input text), row normalization, and the inner-product scoring of
`IndexFlatIP` are passed in as functions.
-/

structure PyChunk where
  chunk_id : String
  document_id : String
  chunk_index : Nat
  text : String
  vector_index : Nat
deriving DecidableEq, Inhabited

structure VectorStore (α : Type) where
  indexRows : List α
  chunks : List PyChunk
deriving DecidableEq

/-- The store as built by `_create_new_index` with no prior file. -/
def emptyStore (α : Type) : VectorStore α := { indexRows := [], chunks := [] }

/-- Outcomes of the two disk writes `_save_index` performs: the
`faiss.write_index` call and the `chunks.json` dump. -/
structure SaveOutcome where
  indexWrite : Except String Unit
  chunksWrite : Except String Unit
deriving DecidableEq

/-- The body of `_save_index` before its `except` clause: write the
index file, then the metadata file, failing on the first error. -/
def save_index_attempt (o : SaveOutcome) : Except String Unit := do
  o.indexWrite
  o.chunksWrite

/-- `_save_index`: both writes run inside `try`, and any exception is
caught and only printed, so the method always returns normally. -/
def save_index (o : SaveOutcome) : Except String Unit :=
  match save_index_attempt o with
  | .ok _ => .ok ()
  | .error _e => .ok ()

/-- The in-memory effect of `add_chunks` on a non-empty input: append
one normalized embedding row per chunk and append the chunks with
`vector_index` assigned from the previous length onward. -/
def addInMemory (embed : String → α) (nrm : α → α)
    (vs : VectorStore α) (cs : List PyChunk) : VectorStore α :=
  let texts := cs.map (·.text)
  let embeddings := texts.map embed
  let normalized := embeddings.map nrm
  let start := vs.chunks.length
  { indexRows := vs.indexRows ++ normalized
    chunks := vs.chunks ++ cs.enum.map (fun p => { p.2 with vector_index := start + p.1 }) }

/-- `VectorStore.add_chunks`: empty input returns 0 without touching
disk; otherwise embed, normalize, append to index and metadata, call
`_save_index` with outcome `o`, and return the number added. -/
def add_chunks (embed : String → α) (nrm : α → α) (o : SaveOutcome)
    (vs : VectorStore α) (cs : List PyChunk) :
    Except String (VectorStore α × Nat) :=
  if cs.isEmpty then .ok (vs, 0)
  else
    let vs2 := addInMemory embed nrm vs cs
    match save_index o with
    | .ok _ => .ok (vs2, cs.length)
    | .error e => .error e

/-- `VectorStore.clear`: fresh empty index, empty metadata list; the
source does not call `_save_index` here. -/
def clear (vs : VectorStore α) : VectorStore α :=
  let _ := vs
  emptyStore α

/-- Insert into a list kept in decreasing order of score (second
component), earlier elements first on ties. -/
def insertDesc (x : Nat × ℚ) : List (Nat × ℚ) → List (Nat × ℚ)
  | [] => [x]
  | y :: ys => if y.2 < x.2 then x :: y :: ys else y :: insertDesc x ys

/-- Sort index-score pairs by decreasing score, stably. -/
def sortDesc : List (Nat × ℚ) → List (Nat × ℚ)
  | [] => []
  | x :: xs => insertDesc x (sortDesc xs)

/-- Exact search of `faiss.IndexFlatIP`: score every row, return the
`k` best `(row index, score)` pairs in decreasing score order. -/
def topScored (scores : List ℚ) (k : Nat) : List (Nat × ℚ) :=
  (sortDesc scores.enum).take k

/-- The `enumerate` pass collecting the positions of chunks whose
`document_id` lies in the filter list. -/
def validIndices (vs : VectorStore α) (ids : List String) : List Nat :=
  (vs.chunks.enum.filter (fun p => ids.contains p.2.document_id)).map (·.1)

/-- The document-filtered branch of `VectorStore.search`: build the
transient sub-index over the selected rows (`reconstruct` is
`indexRows.getD`), search it, and map hits back through
`valid_indices`, keeping scores at or above the threshold. -/
def filteredSearch [Inhabited α] (sim : α → α → ℚ) (q : α) (vs : VectorStore α)
    (ids : List String) (top_k : Nat) (score_threshold : ℚ) : List (PyChunk × ℚ) :=
  let valid_indices := validIndices vs ids
  if valid_indices.isEmpty then []
  else
    let subset := valid_indices.map (fun i => vs.indexRows.getD i default)
    let hits := topScored (subset.map (sim q)) (min top_k valid_indices.length)
    hits.filterMap (fun p =>
      if score_threshold ≤ p.2 then
        some (vs.chunks.getD (valid_indices.getD p.1 0) default, p.2)
      else none)

/-- The unfiltered branch of `VectorStore.search` over the whole
index. -/
def fullSearch [Inhabited α] (sim : α → α → ℚ) (q : α) (vs : VectorStore α)
    (top_k : Nat) (score_threshold : ℚ) : List (PyChunk × ℚ) :=
  let hits := topScored (vs.indexRows.map (sim q)) (min top_k vs.chunks.length)
  hits.filterMap (fun p =>
    if score_threshold ≤ p.2 then
      some (vs.chunks.getD p.1 default, p.2)
    else none)

/-- `VectorStore.search`.  `document_ids` is the optional filter; the
Python truthiness test `if document_ids:` sends both `None` and `[]` to
the unfiltered branch.  `k` is clamped by `min` in both branches, so
FAISS never pads results with `-1` indices. -/
def search [Inhabited α] (embedQ : String → α) (nrm : α → α) (sim : α → α → ℚ)
    (vs : VectorStore α) (query : String) (top_k : Nat) (score_threshold : ℚ)
    (document_ids : Option (List String)) : List (PyChunk × ℚ) :=
  if vs.chunks.isEmpty || vs.indexRows.length == 0 then []
  else
    let q := nrm (embedQ ("query: " ++ query))
    let ids := document_ids.getD []
    if !ids.isEmpty then filteredSearch sim q vs ids top_k score_threshold
    else fullSearch sim q vs top_k score_threshold

/-- The two mutating operations of the store, each `add` carrying the
disk outcome of its `_save_index` call. -/
inductive StoreOp
  | add (o : SaveOutcome) (cs : List PyChunk)
  | clearOp

/-- Apply one mutation; `add_chunks` never propagates an error (its
save swallows exceptions), the `.error` arm is dead code. -/
def applyOp (embed : String → α) (nrm : α → α)
    (vs : VectorStore α) : StoreOp → VectorStore α
  | .add o cs =>
      match add_chunks embed nrm o vs cs with
      | .ok (vs', _) => vs'
      | .error _ => vs
  | .clearOp => clear vs

/-- The spec invariant for C4's store: metadata and matrix have equal
length and `M[i].vector_index == i`. -/
def storeInvariant (vs : VectorStore α) : Prop :=
  vs.chunks.length = vs.indexRows.length ∧
  ∀ i (h : i < vs.chunks.length), (vs.chunks[i]).vector_index = i

instance (vs : VectorStore α) : Decidable (storeInvariant vs) := by
  unfold storeInvariant
  exact instDecidableAnd

/-! ## LLM layer

`LLMService._generate_with_fallback` in `app/services/llm.py`.  A
backend is embedded as its tag, its `is_available()` answer, and the
outcome of its `generate_response` call.
-/

structure Backend where
  tag : String
  available : Bool
  result : Except String String
deriving DecidableEq

structure LLMState where
  primary : Option Backend
  fallback : Option Backend
deriving DecidableEq

/-- Does `needle` occur at the start of the second list? -/
def matchesAt : List Char → List Char → Bool
  | [], _ => true
  | _ :: _, [] => false
  | a :: as, b :: bs => a == b && matchesAt as bs

/-- Substring test: Python `needle in haystack`. -/
def pyContains (needle : List Char) : List Char → Bool
  | [] => matchesAt needle []
  | c :: rest => matchesAt needle (c :: rest) || pyContains needle rest

/-- The source's validity check on a generated answer, negated: the
answer is rejected when falsy (empty) or when its lowercasing contains
either error-marker phrase. -/
def errorLikeAnswer (a : String) : Bool :=
  a.isEmpty ||
    pyContains "encountered an error".data (pyLower a.data) ||
    pyContains "couldn\x27t generate".data (pyLower a.data)

def terminalLLMError : String :=
  "No LLM available or all LLMs failed to generate a valid response."

/-- The primary attempt of `_generate_with_fallback`: `None` stands
for falling through to the fallback section, whether because the slot
is unset, unavailable, raised, or returned a rejected answer. -/
def tryPrimary (b? : Option Backend) : Option (String × String) :=
  match b? with
  | some b =>
      if b.available then
        match b.result with
        | .ok a => if errorLikeAnswer a then none else some (a, b.tag)
        | .error _ => none
      else none
  | none => none

/-- `_generate_with_fallback`: try the primary if set and available; a
raised exception or a rejected answer falls through to the fallback; a
rejected fallback answer is raised and immediately caught by the
fallback's own handler; every failing path ends at the terminal
`raise`. -/
def generate_with_fallback (st : LLMState) : Except String (String × String) :=
  match tryPrimary st.primary with
  | some r => .ok r
  | none =>
      match st.fallback with
      | some b =>
          if b.available then
            match b.result with
            | .ok a =>
                if errorLikeAnswer a then .error terminalLLMError
                else .ok (a, b.tag)
            | .error _ => .error terminalLLMError
          else .error terminalLLMError
      | none => .error terminalLLMError

/-- A backend slot produces an accepted answer `r`: it is set,
available, returns rather than raises, and the answer passes the
source's check. -/
def BackendYieldsGood (b : Option Backend) (r : String × String) : Prop :=
  ∃ x, b = some x ∧ x.available = true ∧ x.result = .ok r.1 ∧
    errorLikeAnswer r.1 = false ∧ r.2 = x.tag

/-- A backend slot fails to produce an accepted answer: whenever it is
set and available, it either raises or returns a rejected answer. -/
def BackendFails (b : Option Backend) : Prop :=
  ∀ x, b = some x → x.available = true →
    ∀ a, x.result = .ok a → errorLikeAnswer a = true

/-! ## Query pipeline

`ask_question` and `save_query_to_history` in
`app/routers/query.py`.  The relational store is embedded as `AppDb`;
`rag_service.search_documents`, the `DocumentDB` lookup, the executor
call of `llm_service.generate_answer`, the `time.time()` readings and
the commit outcome are oracles in `AskOracle`.
-/

structure QueryRequest where
  question : String
  top_k : Nat
  score_threshold : ℚ
  max_tokens : Nat
  temperature : ℚ
deriving DecidableEq

structure SourceInfo where
  document_name : String
  page : Option Nat
  similarity_score : ℚ
  content : String
deriving DecidableEq

structure QueryResponse where
  success : Bool
  answer : String
  sources : List SourceInfo
  llm_used : Option String
  response_time : ℚ
  context_chunks_count : Nat
  error : Option String
deriving DecidableEq

/-- A `query_history` row; `success` is the string column
`"true"`/`"false"` of `QueryHistoryDB`. -/
structure QueryRecord where
  question : String
  answer : Option String
  sources_count : Nat
  response_time : ℚ
  llm_used : Option String
  context_chunks_count : Nat
  success : String
  similarity_hash : String
deriving DecidableEq

/-- The `analytics_stats` singleton row (timestamps omitted). -/
structure AnalyticsStatsRow where
  total_queries : Nat
  total_documents : Nat
  avg_response_time : ℚ
deriving DecidableEq

/-- The relational store: `query_history` rows, the `documents` row
count, and the optional `analytics_stats` row. -/
structure AppDb where
  history : List QueryRecord
  documentCount : Nat
  stats : Option AnalyticsStatsRow
deriving DecidableEq

/-- `save_query_to_history`: build the row from the response, append
it, bump the running totals, and commit; any exception inside the
`try` rolls the transaction back, leaving the store unchanged.
`commitOk` is the transaction outcome. -/
def save_query_to_history (commitOk : Bool) (db : AppDb)
    (question : String) (resp : QueryResponse) : AppDb :=
  if commitOk then
    let record : QueryRecord :=
      { question := question
        answer := if resp.success then some resp.answer else none
        sources_count := resp.sources.length
        response_time := resp.response_time
        llm_used := resp.llm_used
        context_chunks_count := resp.context_chunks_count
        success := if resp.success then "true" else "false"
        similarity_hash := get_question_hash question.data }
    let stats' :=
      match db.stats with
      | some s =>
          let tq := s.total_queries + 1
          let totalTime := s.avg_response_time * (tq - 1 : ℚ) + resp.response_time
          some { s with total_queries := tq, avg_response_time := totalTime / tq }
      | none => none
    { db with history := db.history ++ [record], stats := stats' }
  else db

/-- A chunk dictionary as returned by `rag_service.search_documents`,
restricted to the keys `ask_question` reads. -/
structure RagChunk where
  document_id : String
  text : String
  similarity_score : ℚ
  page : Option Nat
deriving DecidableEq

/-- The dictionary `search_documents` returns: its `success` flag and
its `results` list. -/
structure SearchOutcome where
  success : Bool
  results : List RagChunk
deriving DecidableEq

/-- The columns of a `DocumentDB` row read by `ask_question`. -/
structure DocInfo where
  filename : String
  file_type : String
deriving DecidableEq

/-- The keys of the `generate_answer` result dictionary that
`ask_question` reads. -/
structure LlmResultDict where
  answer : String
  llm_used : Option String
deriving DecidableEq

structure AskOracle where
  searchOutcome : SearchOutcome
  docLookup : String → Option DocInfo
  llmOutcome : Except String LlmResultDict
  elapsedNoResults : ℚ
  elapsedSuccess : ℚ
  elapsedError : ℚ
  commitOk : Bool

/-- A search chunk after the document-name enhancement loop. -/
structure EnhancedChunk where
  document_id : String
  text : String
  similarity_score : ℚ
  page : Option Nat
  document_name : Option String
deriving DecidableEq

/-- Step 2 of `ask_question`: a truthy `document_id` is looked up in
`DocumentDB`; a found row contributes its filename, a missing row the
synthetic `"Document <id>"` name; a falsy id leaves the key absent. -/
def enhanceChunk (docLookup : String → Option DocInfo) (c : RagChunk) : EnhancedChunk :=
  if c.document_id ≠ "" then
    match docLookup c.document_id with
    | some d =>
        let _ := d.file_type
        { document_id := c.document_id, text := c.text
          similarity_score := c.similarity_score, page := c.page
          document_name := some d.filename }
    | none =>
        { document_id := c.document_id, text := c.text
          similarity_score := c.similarity_score, page := c.page
          document_name := some ("Document " ++ c.document_id) }
  else
    { document_id := c.document_id, text := c.text
      similarity_score := c.similarity_score, page := c.page
      document_name := none }

/-- Python `round(x, 3)` idealized over exact rationals (the float
version banker-rounds exact ties, which exact arithmetic cannot
observe faithfully). -/
def pyRound3 (q : ℚ) : ℚ := round (q * 1000) / 1000

/-- Step 4 of `ask_question`: walk the first three enhanced chunks,
skip documents already cited, and build the `SourceInfo` entries. -/
def formatSources (enhanced : List EnhancedChunk) : List SourceInfo :=
  let rec walk : List EnhancedChunk → List String → List SourceInfo
    | [], _ => []
    | c :: rest, seen =>
        let docName := c.document_name.getD "Unknown"
        if docName ∈ seen then walk rest seen
        else
          { document_name := docName
            page := c.page
            similarity_score := pyRound3 c.similarity_score
            content :=
              if c.text ≠ "" then ⟨c.text.data.take 200⟩ ++ "..."
              else "No content available" } :: walk rest (docName :: seen)
  walk (enhanced.take 3) []

def noRelevantInfoAnswer : String :=
  "I couldn\x27t find any relevant information in the documents to answer your question."

def apologyAnswer : String :=
  "I apologize, but I encountered an error while processing your question."

/-- `ask_question`: search, the zero-result early return, chunk
enhancement, LLM generation on the executor (whose raised exceptions
land in the outer `except` and produce the apology response without a
history write), source formatting, and the history write. -/
def ask_question (o : AskOracle) (req : QueryRequest) (db : AppDb) :
    QueryResponse × AppDb :=
  let sr := o.searchOutcome
  if !sr.success || sr.results.isEmpty then
    ({ success := false
       answer := noRelevantInfoAnswer
       sources := []
       llm_used := none
       response_time := o.elapsedNoResults
       context_chunks_count := 0
       error := some "No relevant documents found" }, db)
  else
    let chunks := sr.results.take req.top_k
    let enhanced := chunks.map (enhanceChunk o.docLookup)
    match o.llmOutcome with
    | .error e =>
        ({ success := false
           answer := apologyAnswer
           sources := []
           llm_used := none
           response_time := o.elapsedError
           context_chunks_count := 0
           error := some e }, db)
    | .ok lr =>
        let sources := formatSources enhanced
        let resp : QueryResponse :=
          { success := true
            answer := lr.answer
            sources := sources
            llm_used := lr.llm_used
            response_time := o.elapsedSuccess
            context_chunks_count := enhanced.length
            error := none }
        (resp, save_query_to_history o.commitOk db req.question resp)

/-! ## Analytics

`get_stats` in `app/routers/analytics.py` (the `last_updated`
timestamp is omitted from the embedding).
-/

/-- The response model of `/analytics/stats`. -/
structure AnalyticsStats where
  total_queries : Nat
  total_documents : Nat
  avg_response_time : ℚ
  successful_queries : Nat
  failed_queries : Nat
  top_llm_used : Option String
deriving DecidableEq

/-- Per-value usage counts of the non-null `llm_used` column, in first
occurrence order. -/
def llmUsageCounts (h : List QueryRecord) : List (String × Nat) :=
  let vals := (h.filterMap (·.llm_used)).dedup
  vals.map (fun v => (v, (h.filter (fun r => r.llm_used == some v)).length))

/-- The row the SQL `ORDER BY count DESC ... .first()` yields: a value
of maximal count (the backend leaves ties unordered; the model keeps
the first-listed maximum). -/
def topByCount : List (String × Nat) → Option (String × Nat)
  | [] => none
  | x :: xs =>
      match topByCount xs with
      | none => some x
      | some y => if x.2 < y.2 then some y else some x

/-- SQL `AVG(response_time)` over all `query_history` rows, `NULL`
(hence `0.0` after the falsy-check) on an empty table. -/
def sqlAvgResponseTime (h : List QueryRecord) : ℚ :=
  if h.isEmpty then 0 else (h.map (·.response_time)).sum / h.length

/-- `get_stats`: live counts from `query_history` and `documents`, the
success split on the string column, the most-used LLM, the unfiltered
average response time, and the write-back of the live totals into the
`analytics_stats` row. -/
def get_stats (db : AppDb) : AnalyticsStats × AppDb :=
  let total_queries := db.history.length
  let total_documents := db.documentCount
  let successful_queries := (db.history.filter (fun r => r.success == "true")).length
  let failed_queries := total_queries - successful_queries
  let top_llm_used := (topByCount (llmUsageCounts db.history)).map (·.1)
  let avg_response_time := sqlAvgResponseTime db.history
  let stats : AnalyticsStats :=
    { total_queries := total_queries
      total_documents := total_documents
      avg_response_time := avg_response_time
      successful_queries := successful_queries
      failed_queries := failed_queries
      top_llm_used := top_llm_used }
  (stats,
   { db with stats := some { total_queries := total_queries
                             total_documents := total_documents
                             avg_response_time := avg_response_time } })

/-- The average the spec asks for, stated from its words: the mean of
`response_time` over exactly the records with `success = true`, and
`0.0` when no such record exists. -/
def specAvgSuccessfulResponseTime (h : List QueryRecord) : ℚ :=
  let succ := h.filter (fun r => r.success == "true")
  if succ.isEmpty then 0 else (succ.map (·.response_time)).sum / succ.length

/-! ## Ingest with progress

`RAGService.process_and_store_document_with_progress` in
`app/services/rag_service.py`, for a run with a registered
`client_id`, so every `send_progress` call emits an event.  The
document on disk is a `FileDesc` as for `process_document`; the
chunker (`chunk_text`, a pure library call) is a function parameter;
`addOutcomes` says for each successive `add_chunks` batch call whether
it returned normally (`_save_index` swallows disk errors, but the
embedder inside `add_chunks` can raise).
-/

inductive Stage
  | extracting
  | chunking
  | embedding
  | indexing
  | complete
  | error
deriving DecidableEq

structure ProgressEvent where
  stage : Stage
  progress : Nat
deriving DecidableEq

structure IngestEnv where
  file : FileDesc
  addOutcomes : List Bool

/-- The batching loop of step 3: per batch of 10, call `add_chunks`
(a raise aborts the loop and propagates) and emit an embedding event
at `60 + int(chunks_added / len(chunks) * 30)`; the fuel argument
keeps the recursion structural. -/
def runBatches (total : Nat) : Nat → List PyChunk → Nat → List Bool →
    List ProgressEvent × Bool
  | _, [], _, _ => ([], true)
  | 0, _ :: _, _, _ => ([], true)
  | fuel + 1, c :: rest, added, outcomes =>
      let batch := (c :: rest).take 10
      if outcomes.headD true then
        let added' := added + batch.length
        let ev : ProgressEvent := ⟨Stage.embedding, 60 + added' * 30 / total⟩
        let (evs, s) := runBatches total fuel ((c :: rest).drop 10) added' outcomes.tail
        (ev :: evs, s)
      else ([], false)

/-- `process_and_store_document_with_progress`, returning the emitted
event sequence and the `success` flag of the result dictionary. -/
def ingest_with_progress (chunkText : String → List PyChunk) (env : IngestEnv) :
    List ProgressEvent × Bool :=
  let e0 : List ProgressEvent := [⟨Stage.extracting, 10⟩]
  match process_document env.file with
  | .error _ => (e0 ++ [⟨Stage.error, 0⟩], false)
  | .ok (text, _) =>
      let e1 := e0 ++ [⟨Stage.extracting, 30⟩]
      if (pyStrip text.data).isEmpty then (e1 ++ [⟨Stage.error, 0⟩], false)
      else
        let chunks := chunkText text
        let e2 := e1 ++ [⟨Stage.chunking, 40⟩, ⟨Stage.chunking, 50⟩, ⟨Stage.embedding, 60⟩]
        let (bev, ok) := runBatches chunks.length chunks.length chunks 0 env.addOutcomes
        if ok then (e2 ++ bev ++ [⟨Stage.indexing, 95⟩, ⟨Stage.complete, 100⟩], true)
        else (e2 ++ bev ++ [⟨Stage.error, 0⟩], false)

/-- The stage trajectory the spec prescribes. -/
def canonicalStages : List Stage :=
  [Stage.extracting, Stage.chunking, Stage.embedding, Stage.indexing, Stage.complete]

/-- Collapse adjacent repeats, turning the event stream's stage labels
into the sequence of stage transitions. -/
def collapse : List Stage → List Stage
  | [] => []
  | [s] => [s]
  | s :: t :: rest => if s = t then collapse (t :: rest) else s :: collapse (t :: rest)

/-- The protocol property claimed for progress streams: the stage
transitions form the canonical sequence or a prefix of it closed by a
single error event; error events carry progress 0; all progress values
are at most 100; and the non-error progress values are
non-decreasing. -/
def ProgressOk (evs : List ProgressEvent) : Prop :=
  (collapse (evs.map (·.stage)) <+: canonicalStages ∨
    ∃ p, p <+: canonicalStages ∧ collapse (evs.map (·.stage)) = p ++ [Stage.error]) ∧
  (evs.map (·.stage)).count Stage.error ≤ 1 ∧
  (∀ e ∈ evs, e.stage = Stage.error → e.progress = 0) ∧
  (∀ e ∈ evs, e.progress ≤ 100) ∧
  List.Chain' (· ≤ ·)
    (((evs.filter (fun e => !(e.stage == Stage.error))).map (·.progress)))

/-! ## Shared lemmas about the vector store -/

/-- The exception handler of `_save_index` makes it return normally on
every outcome. -/
theorem save_index_eq_ok (o : SaveOutcome) : save_index o = .ok () := by
  unfold save_index save_index_attempt
  rcases o with ⟨iw, cw⟩
  rcases iw with e | u <;> rcases cw with e' | u' <;> rfl

/-- Closed form of `add_chunks`: it never fails, and the in-memory
mutation is independent of the disk outcome. -/
theorem add_chunks_eq (embed : String → α) (nrm : α → α) (o : SaveOutcome)
    (vs : VectorStore α) (cs : List PyChunk) :
    add_chunks embed nrm o vs cs =
      .ok (if cs.isEmpty then (vs, 0) else (addInMemory embed nrm vs cs, cs.length)) := by
  unfold add_chunks
  rcases h : cs.isEmpty with _ | _ <;> simp [h, save_index_eq_ok]

/-! ## Claim theorems -/

/-- C10: for every query string, `top_k`, `score_threshold`, and
optional `document_ids` filter, searching a vector store that contains
zero chunks returns the empty result list (the guard at the top of
`VectorStore.search` exits before any embedding or index work, so
nothing can raise). -/
theorem search_on_empty_store_eq_nil [Inhabited α] (embedQ : String → α)
    (nrm : α → α) (sim : α → α → ℚ) (vs : VectorStore α) (query : String)
    (top_k : Nat) (score_threshold : ℚ) (document_ids : Option (List String))
    (h : vs.chunks = []) :
    search embedQ nrm sim vs query top_k score_threshold document_ids = [] := by
  unfold search
  simp [h]

/-- Witness for C10: the fresh store really has no chunks and the
search returns the empty list on a concrete invocation. -/
theorem search_on_empty_store_eq_nil_witness :
    search (fun _ => (0 : Nat)) (fun v => v) (fun _ _ => 1) (emptyStore Nat)
      "what is rag" 5 (3/10) (some ["d1"]) = [] :=
  search_on_empty_store_eq_nil _ _ _ _ _ _ _ _ rfl

/-- C4: `process_document` checks existence first (`FileNotFoundError`),
then the 50 MiB size cap (`ValueError`, TooLarge), then the lowercased
extension against the accepted set (`ValueError`, UnsupportedFormat);
for an accepted extension every exception raised during extraction is
swallowed and the call returns empty text with `char_count` 0 (provided
the artifact write itself succeeds, which is outside extraction). -/
theorem process_document_error_taxonomy (f : FileDesc) :
    (f.present = false →
      process_document f = .error (.notFound ("File not found: " ++ f.path))) ∧
    (f.present = true → f.size > 50 * 1024 * 1024 →
      process_document f = .error (.tooLarge "File too large (>50 MB)")) ∧
    (f.present = true → f.size ≤ 50 * 1024 * 1024 →
      supportedExtensions.contains (strLower f.suffix) = false →
      process_document f =
        .error (.unsupportedFormat ("Unsupported file format: " ++ strLower f.suffix))) ∧
    (f.present = true → f.size ≤ 50 * 1024 * 1024 →
      supportedExtensions.contains (strLower f.suffix) = true →
      ∀ msg, f.extractOutcome = .error msg → f.writeOutcome = .ok () →
      process_document f = .ok ("", 0)) := by
  refine ⟨fun hp => ?_, fun hp hs => ?_, fun hp hs he => ?_, fun hp hs he msg hx hw => ?_⟩ <;>
    unfold process_document
  · simp [hp]
  · simp [hp, hs]
  · have he' : ¬ strLower f.suffix ∈ supportedExtensions := by simpa using he
    simp [hp, Nat.not_lt.mpr hs, he']
  · have he' : strLower f.suffix ∈ supportedExtensions := by simpa using he
    simp [hp, Nat.not_lt.mpr hs, he', hx, hw]

/-- Witness for C4: the four error-path behaviors at concrete files. -/
theorem process_document_error_taxonomy_witness :
    process_document ⟨"/data/gone.txt", false, 10, ".txt", .ok "x", .ok ()⟩ =
      .error (.notFound "File not found: /data/gone.txt") ∧
    process_document ⟨"/data/big.pdf", true, 52428801, ".pdf", .ok "x", .ok ()⟩ =
      .error (.tooLarge "File too large (>50 MB)") ∧
    process_document ⟨"/data/tool.EXE", true, 10, ".EXE", .ok "x", .ok ()⟩ =
      .error (.unsupportedFormat "Unsupported file format: .exe") ∧
    process_document ⟨"/data/bad.docx", true, 10, ".docx", .error "parse failure", .ok ()⟩ =
      .ok ("", 0) :=
  ⟨(process_document_error_taxonomy _).1 (by decide),
   (process_document_error_taxonomy _).2.1 (by decide) (by decide),
   (process_document_error_taxonomy _).2.2.1 (by decide) (by decide) (by decide),
   (process_document_error_taxonomy _).2.2.2 (by decide) (by decide) (by decide)
     "parse failure" rfl rfl⟩

/-- A concrete chunk used by several concrete evaluations. -/
def sampleChunk : PyChunk :=
  { chunk_id := "d1_chunk_0", document_id := "d1", chunk_index := 0,
    text := "hello world", vector_index := 0 }

/-- C2 counterexample: with the index-file write failing, `add_chunks`
still returns success (count 1) and the in-memory state keeps the
appended row and metadata entry, differing from the state before the
call; nothing is reverted. -/
theorem add_chunks_no_revert_on_write_failure_cex :
    add_chunks (fun _ => (0 : Nat)) (fun v => v)
        ⟨.error "disk full", .ok ()⟩ (emptyStore Nat) [sampleChunk] =
      .ok ({ indexRows := [0], chunks := [sampleChunk] }, 1) ∧
    ({ indexRows := [0], chunks := [sampleChunk] } : VectorStore Nat) ≠ emptyStore Nat := by
  constructor
  · rfl
  · decide

/-- C2 amended: if writing either the index file or the metadata
sidecar fails, the exception is caught inside `_save_index` and only
logged; `add_chunks` still reports success with the chunk count, and
the in-memory state keeps the appended rows and metadata exactly as
after a successful save, for every disk outcome. -/
theorem add_chunks_total_despite_save_outcome (embed : String → α) (nrm : α → α)
    (o o' : SaveOutcome) (vs : VectorStore α) (cs : List PyChunk) :
    add_chunks embed nrm o vs cs =
      .ok (if cs.isEmpty then (vs, 0) else (addInMemory embed nrm vs cs, cs.length)) ∧
    add_chunks embed nrm o vs cs = add_chunks embed nrm o' vs cs := by
  refine ⟨add_chunks_eq _ _ _ _ _, ?_⟩
  rw [add_chunks_eq, add_chunks_eq]

/-- A history containing exactly one failed query with a 2-second
response time. -/
def failedOnlyDb : AppDb :=
  { history := [{ question := "what is rag", answer := none, sources_count := 0,
                  response_time := 2, llm_used := none, context_chunks_count := 0,
                  success := "false", similarity_hash := "deadbeef" }],
    documentCount := 0, stats := none }

/-- C3 counterexample: on a history holding only a failed record, the
claim's average (mean over successful records, 0.0 when none exist) is
0, but `get_stats` reports 2: the SQL `AVG` runs with no success
filter. -/
theorem get_stats_avg_counts_failed_records_cex :
    specAvgSuccessfulResponseTime failedOnlyDb.history = 0 ∧
    (get_stats failedOnlyDb).1.avg_response_time = 2 := by
  constructor
  · decide
  · show sqlAvgResponseTime failedOnlyDb.history = 2
    norm_num [sqlAvgResponseTime, failedOnlyDb]

/-- C3 amended: the analytics stats operation returns an
`avg_response_time` equal to the arithmetic mean of `response_time`
over all persisted query records, successes and failures alike, and
0.0 when the history is empty. -/
theorem get_stats_avg_is_mean_over_all_records (db : AppDb) :
    (db.history ≠ [] →
      (get_stats db).1.avg_response_time =
        (db.history.map (·.response_time)).sum / db.history.length) ∧
    (db.history = [] → (get_stats db).1.avg_response_time = 0) := by
  constructor
  · intro h
    show sqlAvgResponseTime db.history = _
    unfold sqlAvgResponseTime
    simp [h]
  · intro h
    show sqlAvgResponseTime db.history = 0
    unfold sqlAvgResponseTime
    simp [h]

/-- Witness for C3 amended: both branches at concrete databases. -/
theorem get_stats_avg_is_mean_over_all_records_witness :
    (get_stats failedOnlyDb).1.avg_response_time =
      (failedOnlyDb.history.map (·.response_time)).sum / failedOnlyDb.history.length ∧
    (get_stats { history := [], documentCount := 3, stats := none }).1.avg_response_time = 0 :=
  ⟨(get_stats_avg_is_mean_over_all_records failedOnlyDb).1 (by decide),
   (get_stats_avg_is_mean_over_all_records _).2 rfl⟩

/-- An empty relational store. -/
def emptyDb : AppDb := { history := [], documentCount := 0, stats := none }

/-- An oracle whose retrieval step succeeds with zero results. -/
def zeroResultOracle : AskOracle :=
  { searchOutcome := { success := true, results := [] }
    docLookup := fun _ => none
    llmOutcome := .ok { answer := "an answer", llm_used := some "openai" }
    elapsedNoResults := 1/100
    elapsedSuccess := 2/100
    elapsedError := 3/100
    commitOk := true }

/-- A well-formed ask request. -/
def sampleRequest : QueryRequest :=
  { question := "What is retrieval augmented generation", top_k := 5,
    score_threshold := 3/10, max_tokens := 512, temperature := 3/10 }

/-- C1 counterexample: on a retrieval step that returns zero results,
`ask_question` returns `success = false` (the claim says `true`) with
`llm_used = None` (the claim says the string `"none"`), and the query
history is left untouched (the claim says a QueryRecord is
persisted). -/
theorem ask_question_zero_results_cex :
    (ask_question zeroResultOracle sampleRequest emptyDb).1.success = false ∧
    (ask_question zeroResultOracle sampleRequest emptyDb).1.llm_used = none ∧
    (ask_question zeroResultOracle sampleRequest emptyDb).2 = emptyDb := by
  refine ⟨rfl, rfl, rfl⟩

/-- C1 amended: for every ask request whose retrieval step returns
zero results, `ask_question` returns early with `success = false`, the
fixed "couldn't find any relevant information" answer, an empty
sources list, `llm_used = None`, `error = "No relevant documents
found"`, and no QueryRecord is persisted: the store is returned
unchanged. -/
theorem ask_question_zero_results_behavior (o : AskOracle) (req : QueryRequest)
    (db : AppDb) (h : o.searchOutcome.results = []) :
    ask_question o req db =
      ({ success := false
         answer := noRelevantInfoAnswer
         sources := []
         llm_used := none
         response_time := o.elapsedNoResults
         context_chunks_count := 0
         error := some "No relevant documents found" }, db) := by
  unfold ask_question
  simp [h]

/-- Witness for C1 amended: the early return at a concrete oracle,
request and store. -/
theorem ask_question_zero_results_behavior_witness :
    ask_question zeroResultOracle sampleRequest emptyDb =
      ({ success := false
         answer := noRelevantInfoAnswer
         sources := []
         llm_used := none
         response_time := 1/100
         context_chunks_count := 0
         error := some "No relevant documents found" }, emptyDb) :=
  ask_question_zero_results_behavior zeroResultOracle sampleRequest emptyDb rfl

/-- C6 counterexample: the empty string contains neither error-marker
substring, yet a tried, available primary backend returning it makes
the layer fall through (the source also requires truthiness) and, with
no fallback, raise the terminal error instead of returning the
answer. -/
theorem generate_with_fallback_rejects_empty_answer_cex :
    pyContains "encountered an error".data (pyLower "".data) = false ∧
    pyContains "couldn\x27t generate".data (pyLower "".data) = false ∧
    generate_with_fallback
        { primary := some { tag := "openai", available := true, result := .ok "" }
          fallback := none } =
      .error terminalLLMError := by
  refine ⟨rfl, rfl, rfl⟩

/-- C6 amended: if every available backend in order (primary, then
fallback) raises or returns an empty or error-like answer (lowercased
substring match on "encountered an error" / "couldn't generate"), the
layer raises the terminal error; conversely, if a tried backend
returns a non-empty answer free of those substrings, that answer is
returned with that backend's tag, the primary taking precedence. -/
theorem tryPrimary_eq_none_of_fails {b? : Option Backend}
    (h : BackendFails b?) : tryPrimary b? = none := by
  rcases b? with _ | b
  · rfl
  · unfold tryPrimary
    rcases hb : b.available with _ | _
    · simp [hb]
    · rcases hres : b.result with e | a
      · simp [hb, hres]
      · have := h b rfl hb a hres
        simp [hb, hres, this]

theorem tryPrimary_eq_some_of_good {b? : Option Backend} {r : String × String}
    (h : BackendYieldsGood b? r) : tryPrimary b? = some r := by
  obtain ⟨x, hx, hav, hres, hgood, htag⟩ := h
  subst hx
  unfold tryPrimary
  simp [hav, hres, hgood, htag]
  exact Prod.ext rfl htag.symm

theorem generate_with_fallback_order_and_terminal_error (st : LLMState) :
    (BackendFails st.primary → BackendFails st.fallback →
      generate_with_fallback st = .error terminalLLMError) ∧
    (∀ r, BackendYieldsGood st.primary r → generate_with_fallback st = .ok r) ∧
    (BackendFails st.primary → ∀ r, BackendYieldsGood st.fallback r →
      generate_with_fallback st = .ok r) := by
  refine ⟨fun hp hf => ?_, fun r hr => ?_, fun hp r hr => ?_⟩
  · unfold generate_with_fallback
    rw [tryPrimary_eq_none_of_fails hp]
    rcases hfb : st.fallback with _ | b
    · rfl
    · rcases hb : b.available with _ | _
      · simp [hb]
      · rcases hres : b.result with e | a
        · simp [hb, hres]
        · have := hf b hfb hb a hres
          simp [hb, hres, this]
  · unfold generate_with_fallback
    rw [tryPrimary_eq_some_of_good hr]
  · unfold generate_with_fallback
    rw [tryPrimary_eq_none_of_fails hp]
    obtain ⟨x, hx, hav, hres, hgood, htag⟩ := hr
    rw [hx]
    simp [hav, hres, hgood]
    exact Prod.ext rfl htag.symm

/-- Witness for C6 amended: all three conjuncts at concrete backend
states. -/
theorem generate_with_fallback_order_and_terminal_error_witness :
    generate_with_fallback
        { primary := some { tag := "openai", available := true, result := .error "boom" }
          fallback := none } = .error terminalLLMError ∧
    generate_with_fallback
        { primary := some { tag := "openai", available := true, result := .ok "Paris." }
          fallback := none } = .ok ("Paris.", "openai") ∧
    generate_with_fallback
        { primary := some { tag := "openai", available := false, result := .ok "x" }
          fallback := some { tag := "local", available := true, result := .ok "Paris." } } =
      .ok ("Paris.", "local") := by
  refine ⟨?_, ?_, ?_⟩
  · exact (generate_with_fallback_order_and_terminal_error _).1
      (by intro x hx hav a ha; cases Option.some.inj hx; rw [hav] at *; cases ha)
      (by intro x hx; cases hx)
  · exact (generate_with_fallback_order_and_terminal_error _).2.1 ("Paris.", "openai")
      ⟨_, rfl, rfl, rfl, by decide, rfl⟩
  · exact (generate_with_fallback_order_and_terminal_error _).2.2
      (by intro x hx hav; cases Option.some.inj hx; cases hav)
      ("Paris.", "local") ⟨_, rfl, rfl, rfl, by decide, rfl⟩

/-- The in-memory mutation of `add_chunks` preserves the metadata and
index alignment invariant. -/
theorem addInMemory_preserves_invariant (embed : String → α) (nrm : α → α)
    {vs : VectorStore α} (h : storeInvariant vs) (cs : List PyChunk) :
    storeInvariant (addInMemory embed nrm vs cs) := by
  obtain ⟨hlen, hidx⟩ := h
  unfold addInMemory storeInvariant
  constructor
  · simp [hlen]
  · intro i hi
    simp only [List.length_append, List.length_map, List.enum_length] at hi
    by_cases hlt : i < vs.chunks.length
    · rw [List.getElem_append_left hlt]
      exact hidx i hlt
    · have hge : vs.chunks.length ≤ i := Nat.le_of_not_lt hlt
      rw [List.getElem_append_right hge, List.getElem_map, List.getElem_enum]
      simp only
      omega

/-- C8: the alignment invariant — metadata list and index matrix have
the same number of rows, and the i-th metadata entry's `vector_index`
is i — holds after every completed vector-store mutation, whether an
`add_chunks` with any disk outcome or a `clear`, starting from any
state satisfying it. -/
theorem store_mutations_preserve_invariant (embed : String → α) (nrm : α → α)
    (vs : VectorStore α) (h : storeInvariant vs) (op : StoreOp) :
    storeInvariant (applyOp embed nrm vs op) := by
  cases op with
  | clearOp =>
      refine ⟨rfl, ?_⟩
      intro i hi
      simp [applyOp, clear, emptyStore] at hi
  | add o cs =>
      rcases hc : cs.isEmpty with _ | _
      · simp only [applyOp]
        rw [add_chunks_eq]
        simp only [hc, Bool.false_eq_true, if_false]
        exact addInMemory_preserves_invariant embed nrm h cs
      · simp only [applyOp]
        rw [add_chunks_eq]
        simp only [hc, if_true]
        exact h

/-- Witness for C8: a concrete add on the fresh store keeps the
invariant. -/
theorem store_mutations_preserve_invariant_witness :
    storeInvariant (applyOp (fun _ => (0 : Nat)) (fun v => v) (emptyStore Nat)
      (.add ⟨.ok (), .ok ()⟩ [sampleChunk, { sampleChunk with chunk_index := 1 }])) :=
  store_mutations_preserve_invariant _ _ _ (by decide) _

/-- Insertion introduces no new elements beyond the inserted one. -/
theorem mem_insertDesc {x y : Nat × ℚ} {l : List (Nat × ℚ)}
    (h : y ∈ insertDesc x l) : y = x ∨ y ∈ l := by
  induction l with
  | nil =>
      simp only [insertDesc, List.mem_singleton] at h
      exact Or.inl h
  | cons a l ih =>
      unfold insertDesc at h
      by_cases hc : a.2 < x.2
      · rw [if_pos hc] at h
        rcases List.mem_cons.mp h with h | h
        · exact Or.inl h
        · exact Or.inr h
      · rw [if_neg hc] at h
        rcases List.mem_cons.mp h with h | h
        · exact Or.inr (h ▸ List.mem_cons_self a l)
        · rcases ih h with h' | h'
          · exact Or.inl h'
          · exact Or.inr (List.mem_cons_of_mem a h')

/-- Sorting permutes, so membership is preserved. -/
theorem mem_sortDesc {y : Nat × ℚ} {l : List (Nat × ℚ)}
    (h : y ∈ sortDesc l) : y ∈ l := by
  induction l with
  | nil => simp [sortDesc] at h
  | cons a l ih =>
      unfold sortDesc at h
      rcases mem_insertDesc h with h' | h'
      · exact h' ▸ List.mem_cons_self a l
      · exact List.mem_cons_of_mem a (ih h')

/-- Hits of the model FAISS search carry in-range row indices. -/
theorem topScored_index_lt {scores : List ℚ} {k : Nat} {p : Nat × ℚ}
    (h : p ∈ topScored scores k) : p.1 < scores.length := by
  have h1 : p ∈ sortDesc scores.enum := List.mem_of_mem_take h
  have h2 : p ∈ scores.enum := mem_sortDesc h1
  have h3 := List.mem_enum_iff_getElem?.mp h2
  have h4 := List.getElem?_eq_some.mp h3
  exact h4.1

/-- Every position collected by the filter pass points at a chunk
whose `document_id` is in the filter list. -/
theorem validIndices_spec {vs : VectorStore α} {ids : List String} {i : Nat}
    (h : i ∈ validIndices vs ids) :
    ∃ hlt : i < vs.chunks.length, (vs.chunks[i]).document_id ∈ ids := by
  unfold validIndices at h
  obtain ⟨p, hp, hfst⟩ := List.mem_map.mp h
  have hmem := List.mem_filter.mp hp
  have h3 := List.mem_enum_iff_getElem?.mp hmem.1
  obtain ⟨hlt, hval⟩ := List.getElem?_eq_some.mp h3
  subst hfst
  refine ⟨hlt, ?_⟩
  rw [hval]
  exact List.mem_of_elem_eq_true hmem.2

/-- `validIndices` has as many entries as the transient sub-index. -/
theorem filteredSearch_mem {vs : VectorStore α} [Inhabited α] {sim : α → α → ℚ}
    {q : α} {ids : List String} {top_k : Nat} {score_threshold : ℚ}
    {pr : PyChunk × ℚ}
    (h : pr ∈ filteredSearch sim q vs ids top_k score_threshold) :
    pr.1.document_id ∈ ids := by
  unfold filteredSearch at h
  by_cases hvi : (validIndices vs ids).isEmpty
  · rw [if_pos hvi] at h
    simp at h
  · rw [if_neg hvi] at h
    obtain ⟨p, hp, hcond⟩ := List.mem_filterMap.mp h
    by_cases ht : score_threshold ≤ p.2
    · rw [if_pos ht] at hcond
      have hlt : p.1 < (validIndices vs ids).length := by
        have := topScored_index_lt hp
        simpa using this
      have hmem : (validIndices vs ids).getD p.1 0 ∈ validIndices vs ids := by
        rw [List.getD_eq_getElem _ _ hlt]
        exact List.getElem_mem hlt
      obtain ⟨hclt, hdoc⟩ := validIndices_spec hmem
      have hchunk : vs.chunks.getD ((validIndices vs ids).getD p.1 0) default =
          vs.chunks[(validIndices vs ids).getD p.1 0] :=
        List.getD_eq_getElem _ _ hclt
      have := congrArg Prod.fst (Option.some.inj hcond)
      simp only at this
      rw [← this, hchunk]
      exact hdoc
    · rw [if_neg ht] at hcond
      cases hcond

/-- C5: for every vector-store search invoked with a non-empty
`document_ids` filter, every chunk in the returned result list has a
`document_id` belonging to the filter set — the filtered branch only
maps hits back through `valid_indices`, which collects exactly the
positions of matching chunks. -/
theorem filtered_search_respects_document_filter [Inhabited α]
    (embedQ : String → α) (nrm : α → α) (sim : α → α → ℚ) (vs : VectorStore α)
    (query : String) (top_k : Nat) (score_threshold : ℚ) (ids : List String)
    (hne : ids ≠ []) (pr : PyChunk × ℚ)
    (hpr : pr ∈ search embedQ nrm sim vs query top_k score_threshold (some ids)) :
    pr.1.document_id ∈ ids := by
  unfold search at hpr
  by_cases hempty : vs.chunks.isEmpty || vs.indexRows.length == 0
  · rw [if_pos hempty] at hpr
    cases hpr
  · rw [if_neg hempty] at hpr
    have hni : ids.isEmpty = false := by
      cases ids with
      | nil => exact absurd rfl hne
      | cons a l => rfl
    simp only [Option.getD_some, hni, Bool.not_false, if_true] at hpr
    exact filteredSearch_mem hpr

/-- A second concrete chunk, belonging to a different document. -/
def sampleChunk2 : PyChunk :=
  { chunk_id := "d2_chunk_0", document_id := "d2", chunk_index := 0,
    text := "other text", vector_index := 1 }

/-- A concrete two-document store. -/
def sampleStore : VectorStore Nat :=
  { indexRows := [7, 9], chunks := [sampleChunk, sampleChunk2] }

/-- Witness for C5: on a concrete two-document store, the result the
filtered search returns for the filter `["d2"]` carries a
`document_id` in the filter set. -/
theorem filtered_search_respects_document_filter_witness :
    (sampleChunk2, (1 : ℚ)).1.document_id ∈ ["d2"] :=
  filtered_search_respects_document_filter (fun _ => 0) (fun v => v)
    (fun _ _ => (1 : ℚ)) sampleStore "what is in d2" 5 0 ["d2"] (by decide)
    (sampleChunk2, (1 : ℚ)) (by decide)

/-! ## Lemmas on the question normalization -/

/-- Whitespace characters have small code points. -/
theorem toNat_lt_of_isWhitespace {c : Char} (h : c.isWhitespace = true) :
    c.toNat < 33 := by
  simp only [Char.isWhitespace, Bool.or_eq_true, decide_eq_true_eq] at h
  rcases h with ((rfl | rfl) | rfl) | rfl <;> decide

/-- Lowercasing fixes whitespace characters. -/
theorem toLower_eq_self_of_isWhitespace {c : Char} (h : c.isWhitespace = true) :
    Char.toLower c = c := by
  have hlt := toNat_lt_of_isWhitespace h
  unfold Char.toLower
  rw [if_neg]
  omega

/-- Lowercasing neither creates nor destroys whitespace. -/
theorem isWhitespace_toLower (c : Char) :
    (Char.toLower c).isWhitespace = c.isWhitespace := by
  show (if c.toNat ≥ 65 ∧ c.toNat ≤ 90 then Char.ofNat (c.toNat + 32)
    else c).isWhitespace = c.isWhitespace
  by_cases h : c.toNat ≥ 65 ∧ c.toNat ≤ 90
  · obtain ⟨h1, h2⟩ := h
    rw [if_pos ⟨h1, h2⟩]
    have hws : c.isWhitespace = false := by
      rcases hc : c.isWhitespace with _ | _
      · rfl
      · have := toNat_lt_of_isWhitespace hc
        omega
    rw [hws]
    set n := c.toNat with hn
    interval_cases n <;> decide
  · rw [if_neg h]

/-- Dropping while the predicate holds skips over a fully satisfying
prefix. -/
theorem dropWhile_append_of_all {p : Char → Bool} {w l : List Char}
    (h : ∀ c ∈ w, p c = true) : (w ++ l).dropWhile p = l.dropWhile p := by
  induction w with
  | nil => rfl
  | cons a w ih =>
      rw [List.cons_append, List.dropWhile_cons, if_pos (h a (List.mem_cons_self a w))]
      exact ih (fun c hc => h c (List.mem_cons_of_mem a hc))

/-- Dropping a satisfying prefix never lengthens a list. -/
theorem length_dropWhile_le (p : Char → Bool) (l : List Char) :
    (l.dropWhile p).length ≤ l.length := by
  induction l with
  | nil => exact Nat.le_refl 0
  | cons a l ih =>
      rw [List.dropWhile_cons]
      by_cases hp : p a = true
      · rw [if_pos hp]
        exact Nat.le_succ_of_le ih
      · rw [if_neg hp]

/-- A dropWhile that preserves length drops nothing. -/
theorem dropWhile_eq_self_of_length {p : Char → Bool} {l : List Char}
    (h : (l.dropWhile p).length = l.length) : l.dropWhile p = l := by
  cases l with
  | nil => rfl
  | cons a l =>
      rw [List.dropWhile_cons] at *
      by_cases hp : p a = true
      · rw [if_pos hp] at h
        have := length_dropWhile_le p l
        simp only [List.length_cons] at h
        omega
      · rw [if_neg hp]

/-- The head left by a no-op dropWhile fails the predicate. -/
theorem head_false_of_dropWhile_eq_self {p : Char → Bool} {a : Char} {l : List Char}
    (h : (a :: l).dropWhile p = a :: l) : p a = false := by
  rcases hp : p a with _ | _
  · rfl
  · rw [List.dropWhile_cons, if_pos hp] at h
    have h1 := congrArg List.length h
    have h2 := length_dropWhile_le p l
    simp only [List.length_cons] at h1
    omega

/-- `rstrip` ignores an all-whitespace appendix. -/
theorem rstrip_append_ws {w x : List Char} (h : ∀ c ∈ w, c.isWhitespace = true) :
    rstrip (x ++ w) = rstrip x := by
  unfold rstrip
  rw [List.reverse_append,
    dropWhile_append_of_all (fun c hc => h c (List.mem_reverse.mp hc))]

/-- `lstrip` ignores an all-whitespace prelude. -/
theorem lstrip_append_ws {w x : List Char} (h : ∀ c ∈ w, c.isWhitespace = true) :
    lstrip (w ++ x) = lstrip x :=
  dropWhile_append_of_all h

/-- An all-whitespace list strips to nothing. -/
theorem lstrip_all_ws {w : List Char} (h : ∀ c ∈ w, c.isWhitespace = true) :
    lstrip w = [] := by
  have := lstrip_append_ws (x := []) h
  rwa [List.append_nil] at this

/-- Stripping is unaffected by an all-whitespace appendix even under a
prior `lstrip`. -/
theorem rstrip_lstrip_append_ws {w x : List Char}
    (h : ∀ c ∈ w, c.isWhitespace = true) :
    rstrip (lstrip (x ++ w)) = rstrip (lstrip x) := by
  induction x with
  | nil =>
      rw [List.nil_append, lstrip_all_ws h]
      rfl
  | cons a x ih =>
      unfold lstrip at *
      rw [List.cons_append, List.dropWhile_cons, List.dropWhile_cons]
      rcases ha : a.isWhitespace with _ | _
      · rw [if_neg (by simp), if_neg (by simp)]
        rw [show a :: (x ++ w) = (a :: x) ++ w from rfl, rstrip_append_ws h]
      · rw [if_pos rfl, if_pos rfl]
        exact ih

/-- `pyStrip` ignores all-whitespace padding on both sides. -/
theorem pyStrip_pad {w1 w2 q : List Char}
    (h1 : ∀ c ∈ w1, c.isWhitespace = true) (h2 : ∀ c ∈ w2, c.isWhitespace = true) :
    pyStrip (w1 ++ q ++ w2) = pyStrip q := by
  unfold pyStrip
  rw [List.append_assoc, lstrip_append_ws h1, rstrip_lstrip_append_ws h2]

/-- Lowercasing commutes with dropping leading whitespace. -/
theorem dropWhile_ws_pyLower (l : List Char) :
    (pyLower l).dropWhile Char.isWhitespace =
      pyLower (l.dropWhile Char.isWhitespace) := by
  induction l with
  | nil => rfl
  | cons a l ih =>
      unfold pyLower at *
      rw [List.map_cons, List.dropWhile_cons, List.dropWhile_cons, isWhitespace_toLower a]
      rcases ha : a.isWhitespace with _ | _
      · rw [if_neg (by simp), if_neg (by simp), List.map_cons]
      · rw [if_pos rfl, if_pos rfl]
        exact ih

/-- Lowercasing commutes with `pyStrip`. -/
theorem pyStrip_pyLower (l : List Char) :
    pyStrip (pyLower l) = pyLower (pyStrip l) := by
  unfold pyStrip lstrip rstrip
  rw [dropWhile_ws_pyLower]
  rw [show (pyLower (l.dropWhile Char.isWhitespace)).reverse =
      pyLower (l.dropWhile Char.isWhitespace).reverse by
    unfold pyLower; rw [List.map_reverse]]
  rw [dropWhile_ws_pyLower]
  unfold pyLower
  rw [List.map_reverse]

/-- The three punctuation filters of `normalize_question`, as one
pass. -/
def punctFilters (l : List Char) : List Char :=
  removeChar ',' (removeChar '.' (removeChar '?' l))

theorem normalize_question_eq (q : List Char) :
    normalize_question q = punctFilters (pyStrip (pyLower q)) := rfl

theorem punctFilters_append (a b : List Char) :
    punctFilters (a ++ b) = punctFilters a ++ punctFilters b := by
  unfold punctFilters removeChar
  rw [List.filter_append, List.filter_append, List.filter_append]

/-- Inserting a non-whitespace character inside a left-stripped string
leaves it left-stripped. -/
theorem lstrip_insert_mid {x y : List Char} {p : Char} (hp : p.isWhitespace = false)
    (h : lstrip (x ++ y) = x ++ y) : lstrip (x ++ p :: y) = x ++ p :: y := by
  cases x with
  | nil =>
      unfold lstrip
      rw [List.nil_append, List.dropWhile_cons, if_neg (by simp [hp])]
  | cons a x =>
      have ha : a.isWhitespace = false := by
        rw [List.cons_append] at h
        exact head_false_of_dropWhile_eq_self h
      unfold lstrip
      rw [List.cons_append, List.dropWhile_cons, if_neg (by simp [ha])]

/-- Inserting a non-whitespace character inside a right-stripped string
leaves it right-stripped. -/
theorem rstrip_insert_mid {x y : List Char} {p : Char} (hp : p.isWhitespace = false)
    (h : rstrip (x ++ y) = x ++ y) : rstrip (x ++ p :: y) = x ++ p :: y := by
  have h' : lstrip ((x ++ y).reverse) = (x ++ y).reverse := by
    unfold rstrip at h
    have := congrArg List.reverse h
    rw [List.reverse_reverse] at this
    exact this
  rw [List.reverse_append] at h'
  have h2 := lstrip_insert_mid hp h'
  have hrev : (x ++ p :: y).reverse = y.reverse ++ p :: x.reverse := by
    rw [List.reverse_append, List.reverse_cons, List.append_assoc, List.singleton_append]
  unfold rstrip
  rw [hrev]
  unfold lstrip at h2
  rw [h2, ← hrev, List.reverse_reverse]

/-- Inserting a non-whitespace character inside a fully stripped string
leaves it fully stripped. -/
theorem pyStrip_insert_mid {x y : List Char} {p : Char} (hp : p.isWhitespace = false)
    (h : pyStrip (x ++ y) = x ++ y) : pyStrip (x ++ p :: y) = x ++ p :: y := by
  have hlen1 : (lstrip (x ++ y)).length = (x ++ y).length := by
    have e1 : (lstrip (x ++ y)).length ≤ (x ++ y).length :=
      length_dropWhile_le _ _
    have e2 : (rstrip (lstrip (x ++ y))).length ≤ (lstrip (x ++ y)).length := by
      unfold rstrip
      rw [List.length_reverse]
      calc ((lstrip (x ++ y)).reverse.dropWhile Char.isWhitespace).length
          ≤ (lstrip (x ++ y)).reverse.length := length_dropWhile_le _ _
        _ = (lstrip (x ++ y)).length := List.length_reverse _
    have e3 : rstrip (lstrip (x ++ y)) = x ++ y := h
    rw [e3] at e2
    omega
  have hl : lstrip (x ++ y) = x ++ y := dropWhile_eq_self_of_length hlen1
  have hr : rstrip (x ++ y) = x ++ y := by
    have e : pyStrip (x ++ y) = rstrip (x ++ y) := by
      unfold pyStrip
      rw [hl]
    rw [← e, h]
  unfold pyStrip
  rw [lstrip_insert_mid hp hl, rstrip_insert_mid hp hr]

set_option maxRecDepth 10000 in
/-- C7 counterexample: for the question `"a "` (with a trailing
space), appending `"?"` changes the similarity hash — the source
strips whitespace before removing punctuation, so the `"?"` shields
the trailing space from the strip and `"a"` versus `"a "` reach
MD5. -/
theorem similarity_hash_trailing_whitespace_cex :
    get_question_hash "a ".data ≠ get_question_hash ("a ".data ++ "?".data) := by
  decide

/-- C7 amended: the similarity hash is invariant under case changes
and under all-whitespace padding at either end, and it is invariant
under inserting or removing any of `?`, `.`, `,` at any position of a
question with no leading or trailing whitespace (in particular
`hash(q) = hash(q ++ "?")` for stripped `q`); insertion outside the
stripped core can change the hash, as the counterexample shows. -/
theorem similarity_hash_invariances :
    (∀ q q' : List Char, pyLower q = pyLower q' →
      get_question_hash q = get_question_hash q') ∧
    (∀ w1 w2 q : List Char, (∀ c ∈ w1, c.isWhitespace = true) →
      (∀ c ∈ w2, c.isWhitespace = true) →
      get_question_hash (w1 ++ q ++ w2) = get_question_hash q) ∧
    (∀ p : Char, (p = '?' ∨ p = '.' ∨ p = ',') →
      ∀ s t : List Char, pyStrip (s ++ t) = s ++ t →
      get_question_hash (s ++ p :: t) = get_question_hash (s ++ t)) := by
  refine ⟨?_, ?_, ?_⟩
  · intro q q' h
    unfold get_question_hash normalize_question
    rw [h]
  · intro w1 w2 q h1 h2
    have hn : normalize_question (w1 ++ q ++ w2) = normalize_question q := by
      rw [normalize_question_eq, normalize_question_eq]
      have hw1 : pyLower w1 = w1 := by
        unfold pyLower
        rw [List.map_congr_left (fun c hc => toLower_eq_self_of_isWhitespace (h1 c hc))]
        exact List.map_id w1
      have hw2 : pyLower w2 = w2 := by
        unfold pyLower
        rw [List.map_congr_left (fun c hc => toLower_eq_self_of_isWhitespace (h2 c hc))]
        exact List.map_id w2
      have hlow : pyLower (w1 ++ q ++ w2) = w1 ++ pyLower q ++ w2 := by
        unfold pyLower at *
        rw [List.map_append, List.map_append, hw1, hw2]
      rw [hlow, pyStrip_pad h1 h2]
    unfold get_question_hash
    rw [hn]
  · intro p hp s t hstrip
    have hpl : Char.toLower p = p := by rcases hp with rfl | rfl | rfl <;> decide
    have hpw : p.isWhitespace = false := by rcases hp with rfl | rfl | rfl <;> decide
    have hpf : punctFilters [p] = [] := by rcases hp with rfl | rfl | rfl <;> decide
    have hn : normalize_question (s ++ p :: t) = normalize_question (s ++ t) := by
      rw [normalize_question_eq, normalize_question_eq]
      have hlow2 : pyLower (s ++ t) = pyLower s ++ pyLower t := by
        unfold pyLower
        rw [List.map_append]
      have hlow : pyLower (s ++ p :: t) = pyLower s ++ p :: pyLower t := by
        unfold pyLower
        rw [List.map_append, List.map_cons, hpl]
      have hstrip2 : pyStrip (pyLower s ++ pyLower t) = pyLower s ++ pyLower t := by
        rw [← hlow2, pyStrip_pyLower, hstrip, hlow2]
      have hstrip3 : pyStrip (pyLower s ++ p :: pyLower t) =
          pyLower s ++ p :: pyLower t :=
        pyStrip_insert_mid hpw hstrip2
      rw [hlow, hstrip3, hlow2, hstrip2]
      rw [show pyLower s ++ p :: pyLower t = pyLower s ++ [p] ++ pyLower t by
        rw [List.append_assoc, List.singleton_append]]
      rw [punctFilters_append, punctFilters_append, hpf, punctFilters_append]
      rw [List.append_nil]
    unfold get_question_hash
    rw [hn]

/-- Witness for C7 amended: the three invariances at concrete
questions. -/
theorem similarity_hash_invariances_witness :
    get_question_hash "HELLO World".data = get_question_hash "hello world".data ∧
    get_question_hash (" ".data ++ "hi".data ++ " ".data) = get_question_hash "hi".data ∧
    get_question_hash ("hi".data ++ '?' :: []) = get_question_hash ("hi".data ++ []) :=
  ⟨similarity_hash_invariances.1 "HELLO World".data "hello world".data (by decide),
   similarity_hash_invariances.2.1 " ".data " ".data "hi".data (by decide) (by decide),
   similarity_hash_invariances.2.2 '?' (Or.inl rfl) "hi".data [] (by decide)⟩

/-! ## Lemmas on the ingest progress protocol -/

/-- Unfolding equation for one loop iteration of `runBatches`. -/
theorem runBatches_cons (total fuel : Nat) (c : PyChunk) (rest : List PyChunk)
    (added : Nat) (outcomes : List Bool) :
    runBatches total (fuel + 1) (c :: rest) added outcomes =
      if outcomes.headD true then
        ((⟨Stage.embedding, 60 + (added + ((c :: rest).take 10).length) * 30 / total⟩ :
            ProgressEvent) ::
          (runBatches total fuel ((c :: rest).drop 10)
            (added + ((c :: rest).take 10).length) outcomes.tail).1,
         (runBatches total fuel ((c :: rest).drop 10)
            (added + ((c :: rest).take 10).length) outcomes.tail).2)
      else ([], false) := by
  by_cases ho : outcomes.headD true = true
  · have ho' : outcomes.head?.getD true = true := by
      rw [← List.headD_eq_head?_getD]; exact ho
    rw [if_pos ho, runBatches]
    rcases hrb : runBatches total fuel ((c :: rest).drop 10)
        (added + ((c :: rest).take 10).length) outcomes.tail with ⟨evs, s⟩
    simp at hrb
    simp [ho', hrb]
  · simp only [Bool.not_eq_true] at ho
    have ho' : outcomes.head?.getD true = false := by
      rw [← List.headD_eq_head?_getD]; exact ho
    rw [if_neg (by simp [ho']), runBatches]
    simp [ho']

/-- Every event the batching loop emits is an embedding-stage event in
the 60–90 band, at least as far along as the entry progress, and the
loop's events are emitted with non-decreasing progress. -/
theorem runBatches_spec (total : Nat) :
    ∀ fuel rest added outcomes, added + rest.length = total →
      (∀ e ∈ (runBatches total fuel rest added outcomes).1,
        e.stage = Stage.embedding ∧
        60 + added * 30 / total ≤ e.progress ∧ e.progress ≤ 90) ∧
      List.Chain' (fun a b => a.progress ≤ b.progress)
        (runBatches total fuel rest added outcomes).1 := by
  intro fuel
  induction fuel with
  | zero =>
      intro rest added outcomes h
      cases rest with
      | nil =>
          refine ⟨fun e he => absurd he ?_, ?_⟩ <;> simp [runBatches]
      | cons c rest =>
          refine ⟨fun e he => absurd he ?_, ?_⟩ <;> simp [runBatches]
  | succ fuel ih =>
      intro rest added outcomes h
      cases rest with
      | nil =>
          refine ⟨fun e he => absurd he ?_, ?_⟩ <;> simp [runBatches]
      | cons c rest =>
          have htot : 0 < total := by
            simp only [List.length_cons] at h
            omega
          rcases ho : outcomes.headD true with _ | _
          · constructor
            · intro e he
              rw [runBatches_cons, if_neg (by rw [ho]; exact Bool.false_ne_true)] at he
              simp at he
            · rw [runBatches_cons, if_neg (by rw [ho]; exact Bool.false_ne_true)]
              exact List.chain'_nil
          · have hlenb : ((c :: rest).take 10).length = min 10 (rest.length + 1) := by
              rw [List.length_take, List.length_cons]
            have hinv : (added + ((c :: rest).take 10).length) +
                ((c :: rest).drop 10).length = total := by
              rw [hlenb, List.length_drop, List.length_cons]
              simp only [List.length_cons] at h
              omega
            obtain ⟨ihall, ihchain⟩ := ih ((c :: rest).drop 10)
              (added + ((c :: rest).take 10).length) outcomes.tail hinv
            have hle : added + ((c :: rest).take 10).length ≤ total := by
              omega
            have hub : 60 + (added + ((c :: rest).take 10).length) * 30 / total ≤ 90 := by
              have h1 : (added + ((c :: rest).take 10).length) * 30 ≤ total * 30 :=
                Nat.mul_le_mul_right 30 hle
              have h2 : (added + ((c :: rest).take 10).length) * 30 / total ≤
                  total * 30 / total := Nat.div_le_div_right h1
              rw [Nat.mul_div_cancel_left 30 htot] at h2
              omega
            have hlb : 60 + added * 30 / total ≤
                60 + (added + ((c :: rest).take 10).length) * 30 / total := by
              have h1 : added * 30 ≤ (added + ((c :: rest).take 10).length) * 30 :=
                Nat.mul_le_mul_right 30 (Nat.le_add_right _ _)
              have h2 : added * 30 / total ≤
                  (added + ((c :: rest).take 10).length) * 30 / total :=
                Nat.div_le_div_right h1
              omega
            rcases hrb : runBatches total fuel ((c :: rest).drop 10)
                (added + ((c :: rest).take 10).length) outcomes.tail with ⟨evs, s⟩
            rw [hrb] at ihall ihchain
            have hexpand : (runBatches total (fuel + 1) (c :: rest) added outcomes).1 =
                ⟨Stage.embedding,
                  60 + (added + ((c :: rest).take 10).length) * 30 / total⟩ :: evs := by
              rw [runBatches_cons]
              simp only [ho, if_true, hrb]
            rw [hexpand]
            constructor
            · intro e he
              rcases List.mem_cons.mp he with rfl | he'
              · exact ⟨rfl, hlb, hub⟩
              · obtain ⟨h1, h2, h3⟩ := ihall e he'
                exact ⟨h1, Nat.le_trans hlb h2, h3⟩
            · rw [List.chain'_cons']
              refine ⟨?_, ihchain⟩
              intro b hb
              have hbmem : b ∈ evs := List.mem_of_mem_head? hb
              obtain ⟨_, h2, _⟩ := ihall b hbmem
              exact h2

/-- Step equation of `collapse` on two explicit heads. -/
theorem collapse_cons_cons (s t : Stage) (r : List Stage) :
    collapse (s :: t :: r) = if s = t then collapse (t :: r) else s :: collapse (t :: r) :=
  rfl

/-- A run of the head stage is absorbed by `collapse`. -/
theorem collapse_run {l : List Stage} {s : Stage} (h : ∀ x ∈ l, x = s)
    (rest : List Stage) : collapse (s :: (l ++ rest)) = collapse (s :: rest) := by
  induction l with
  | nil => rfl
  | cons a l ih =>
      have ha : a = s := h a (List.mem_cons_self a l)
      subst ha
      rw [List.cons_append, collapse_cons_cons, if_pos rfl]
      exact ih (fun x hx => h x (List.mem_cons_of_mem a hx))

/-- The progress band `[10, 30, 40, 50, 60]`, then values in `[60, 90]`
in order, then values at least 90 in order, is non-decreasing. -/
theorem chain_le_sandwich {B tl : List Nat}
    (hB : List.Chain' (· ≤ ·) B) (hlo : ∀ b ∈ B, 60 ≤ b) (hhi : ∀ b ∈ B, b ≤ 90)
    (htl : List.Chain' (· ≤ ·) tl) (htlo : ∀ c ∈ tl, 90 ≤ c) :
    List.Chain' (α := Nat) (· ≤ ·) ([10, 30, 40, 50, 60] ++ (B ++ tl)) := by
  rw [List.chain'_append]
  refine ⟨by norm_num [List.chain'_cons], ?_, ?_⟩
  · rw [List.chain'_append]
    refine ⟨hB, htl, ?_⟩
    intro x hx y hy
    have hx' : x ∈ B := List.mem_of_mem_getLast? hx
    have hy' : y ∈ tl := List.mem_of_mem_head? hy
    have e1 := hhi x hx'
    have e2 := htlo y hy'
    omega
  · intro x hx y hy
    have hx60 : x = 60 := by
      simp only [List.getLast?_cons_cons, List.getLast?_singleton] at hx
      exact (Option.mem_some_iff.mp hx).symm
    subst hx60
    have hy' : y ∈ B ++ tl := List.mem_of_mem_head? hy
    rcases List.mem_append.mp hy' with hyy | hyy
    · exact hlo y hyy
    · have := htlo y hyy
      omega

/-- Assembling the full protocol property for a run that passed the
extraction and chunking phases: the batching events sit between the
fixed prelude and either the success coda or a final error event. -/
theorem progressOk_assemble {bev : List ProgressEvent}
    (hall : ∀ e ∈ bev, e.stage = Stage.embedding ∧ 60 ≤ e.progress ∧ e.progress ≤ 90)
    (hchain : List.Chain' (fun a b => a.progress ≤ b.progress) bev)
    (tl : List ProgressEvent)
    (htl : tl = [⟨Stage.indexing, 95⟩, ⟨Stage.complete, 100⟩] ∨ tl = [⟨Stage.error, 0⟩]) :
    ProgressOk ([⟨Stage.extracting, 10⟩, ⟨Stage.extracting, 30⟩, ⟨Stage.chunking, 40⟩,
      ⟨Stage.chunking, 50⟩, ⟨Stage.embedding, 60⟩] ++ bev ++ tl) := by
  have hstage : ∀ x ∈ bev.map (·.stage), x = Stage.embedding := by
    intro x hx
    obtain ⟨e, he, hex⟩ := List.mem_map.mp hx
    rw [← hex]
    exact (hall e he).1
  refine ⟨?_, ?_, ?_, ?_, ?_⟩
  · rw [List.map_append, List.map_append]
    have hshape : (([⟨Stage.extracting, 10⟩, ⟨Stage.extracting, 30⟩, ⟨Stage.chunking, 40⟩,
        ⟨Stage.chunking, 50⟩, ⟨Stage.embedding, 60⟩] : List ProgressEvent).map (·.stage)) ++
          bev.map (·.stage) ++ tl.map (·.stage) =
        Stage.extracting :: Stage.extracting :: Stage.chunking :: Stage.chunking ::
          (Stage.embedding :: (bev.map (·.stage) ++ tl.map (·.stage))) := by
      simp
    rw [hshape]
    rw [collapse_cons_cons, if_pos rfl, collapse_cons_cons,
      if_neg (by decide), collapse_cons_cons, if_pos rfl, collapse_cons_cons,
      if_neg (by decide), collapse_run hstage]
    rcases htl with rfl | rfl
    · exact Or.inl (by decide)
    · exact Or.inr ⟨[Stage.extracting, Stage.chunking, Stage.embedding],
        ⟨[Stage.indexing, Stage.complete], rfl⟩, by decide⟩
  · rw [List.map_append, List.map_append, List.count_append, List.count_append]
    have hb0 : (bev.map (·.stage)).count Stage.error = 0 :=
      List.count_eq_zero.mpr (fun hc => by
        have := hstage Stage.error hc
        cases this)
    rw [hb0]
    rcases htl with rfl | rfl <;> decide
  · intro e he
    rcases List.mem_append.mp he with he' | he'
    · rcases List.mem_append.mp he' with he'' | he''
      · intro hst
        simp only [List.mem_cons, List.not_mem_nil, or_false] at he''
        rcases he'' with rfl | rfl | rfl | rfl | rfl <;> cases hst
      · intro hst
        rw [(hall e he'').1] at hst
        cases hst
    · rcases htl with rfl | rfl
      · intro hst
        simp only [List.mem_cons, List.not_mem_nil, or_false] at he'
        rcases he' with rfl | rfl <;> cases hst
      · intro _
        simp only [List.mem_cons, List.not_mem_nil, or_false] at he'
        subst he'
        rfl
  · intro e he
    rcases List.mem_append.mp he with he' | he'
    · rcases List.mem_append.mp he' with he'' | he''
      · simp only [List.mem_cons, List.not_mem_nil, or_false] at he''
        rcases he'' with rfl | rfl | rfl | rfl | rfl <;> decide
      · have := (hall e he'').2.2
        omega
    · rcases htl with rfl | rfl
      · simp only [List.mem_cons, List.not_mem_nil, or_false] at he'
        rcases he' with rfl | rfl <;> decide
      · simp only [List.mem_cons, List.not_mem_nil, or_false] at he'
        subst he'
        decide
  · have hkeepPre : (([⟨Stage.extracting, 10⟩, ⟨Stage.extracting, 30⟩, ⟨Stage.chunking, 40⟩,
        ⟨Stage.chunking, 50⟩, ⟨Stage.embedding, 60⟩] : List ProgressEvent).filter
          (fun e => !(e.stage == Stage.error))) =
        [⟨Stage.extracting, 10⟩, ⟨Stage.extracting, 30⟩, ⟨Stage.chunking, 40⟩,
         ⟨Stage.chunking, 50⟩, ⟨Stage.embedding, 60⟩] := by decide
    have hkeepB : bev.filter (fun e => !(e.stage == Stage.error)) = bev :=
      List.filter_eq_self.mpr (fun e he => by
        rw [(hall e he).1]
        rfl)
    have hBchain : List.Chain' (α := Nat) (· ≤ ·) (bev.map (fun e => e.progress)) :=
      (List.chain'_map (fun e : ProgressEvent => e.progress)).mpr hchain
    have hBlo : ∀ b ∈ bev.map (fun e => e.progress), 60 ≤ b := by
      intro b hb
      obtain ⟨e, he, hex⟩ := List.mem_map.mp hb
      rw [← hex]
      exact (hall e he).2.1
    have hBhi : ∀ b ∈ bev.map (fun e => e.progress), b ≤ 90 := by
      intro b hb
      obtain ⟨e, he, hex⟩ := List.mem_map.mp hb
      rw [← hex]
      exact (hall e he).2.2
    rcases htl with rfl | rfl
    · rw [List.filter_append, List.filter_append, hkeepPre, hkeepB]
      rw [show (([⟨Stage.indexing, 95⟩, ⟨Stage.complete, 100⟩] : List ProgressEvent).filter
          (fun e => !(e.stage == Stage.error))) =
            [⟨Stage.indexing, 95⟩, ⟨Stage.complete, 100⟩] by decide]
      rw [List.map_append, List.map_append]
      rw [show (([⟨Stage.extracting, 10⟩, ⟨Stage.extracting, 30⟩, ⟨Stage.chunking, 40⟩,
          ⟨Stage.chunking, 50⟩, ⟨Stage.embedding, 60⟩] : List ProgressEvent).map
            (fun e => e.progress)) = [10, 30, 40, 50, 60] by decide]
      rw [show (([⟨Stage.indexing, 95⟩, ⟨Stage.complete, 100⟩] : List ProgressEvent).map
          (fun e => e.progress)) = [95, 100] by decide]
      rw [List.append_assoc]
      apply chain_le_sandwich hBchain hBlo hBhi
      · norm_num [List.chain'_cons]
      · intro c hc
        simp only [List.mem_cons, List.not_mem_nil, or_false] at hc
        rcases hc with rfl | rfl <;> decide
    · rw [List.filter_append, List.filter_append, hkeepPre, hkeepB]
      rw [show (([⟨Stage.error, 0⟩] : List ProgressEvent).filter
          (fun e => !(e.stage == Stage.error))) = [] by decide]
      rw [List.map_append, List.map_append]
      rw [show (([⟨Stage.extracting, 10⟩, ⟨Stage.extracting, 30⟩, ⟨Stage.chunking, 40⟩,
          ⟨Stage.chunking, 50⟩, ⟨Stage.embedding, 60⟩] : List ProgressEvent).map
            (fun e => e.progress)) = [10, 30, 40, 50, 60] by decide]
      rw [show (([] : List ProgressEvent).map (fun e => e.progress)) = [] by decide]
      rw [List.append_assoc]
      apply chain_le_sandwich hBchain hBlo hBhi
      · exact List.chain'_nil
      · intro c hc
        cases hc

/-- C9: every run of `process_and_store_document_with_progress` (with
a registered client, so events are delivered) emits events whose stage
transitions are the canonical sequence extracting, chunking, embedding,
indexing, complete or a prefix of it closed by a single error event;
error events carry progress 0; and progress values are at most 100 and,
error event aside, non-decreasing. -/
theorem ingest_progress_protocol (chunkText : String → List PyChunk)
    (env : IngestEnv) : ProgressOk (ingest_with_progress chunkText env).1 := by
  unfold ingest_with_progress
  rcases hx : process_document env.file with e | pr
  · show ProgressOk [⟨Stage.extracting, 10⟩, ⟨Stage.error, 0⟩]
    refine ⟨Or.inr ⟨[Stage.extracting],
        ⟨[Stage.chunking, Stage.embedding, Stage.indexing, Stage.complete], rfl⟩,
        by decide⟩, by decide, by decide, by decide, ?_⟩
    show List.Chain' (α := Nat) (· ≤ ·) [10]
    exact List.chain'_singleton _
  · rcases pr with ⟨text, cc⟩
    dsimp only
    by_cases hT : (pyStrip text.data).isEmpty = true
    · rw [if_pos hT]
      show ProgressOk [⟨Stage.extracting, 10⟩, ⟨Stage.extracting, 30⟩, ⟨Stage.error, 0⟩]
      refine ⟨Or.inr ⟨[Stage.extracting],
          ⟨[Stage.chunking, Stage.embedding, Stage.indexing, Stage.complete], rfl⟩,
          by decide⟩, by decide, by decide, by decide, ?_⟩
      show List.Chain' (α := Nat) (· ≤ ·) [10, 30]
      norm_num [List.chain'_cons]
    · rw [if_neg hT]
      obtain ⟨hall0, hchain⟩ := runBatches_spec (chunkText text).length
        (chunkText text).length (chunkText text) 0 env.addOutcomes (Nat.zero_add _)
      rcases hrb : runBatches (chunkText text).length (chunkText text).length
          (chunkText text) 0 env.addOutcomes with ⟨bev, ok⟩
      rw [hrb] at hall0 hchain
      have hall : ∀ e ∈ bev, e.stage = Stage.embedding ∧
          60 ≤ e.progress ∧ e.progress ≤ 90 := by
        intro e he
        obtain ⟨h1, h2, h3⟩ := hall0 e he
        refine ⟨h1, ?_, h3⟩
        simpa using h2
      cases ok
      · exact progressOk_assemble hall hchain _ (Or.inr rfl)
      · exact progressOk_assemble hall hchain _ (Or.inl rfl)

end DocQA
